import Mathlib

/-!
Verification of the retrieval engine of the ask-spurgeon repository.

The development shallowly embeds the Python sources:
* `src/pdf_processor.py` — `PDFProcessor.chunk_text` (text chunking, modelled on `List Char`);
* `src/vector_db.py` — `VectorDatabase` (FAISS-backed vector index with add, search,
  save, load, get_stats; vector components are modelled as exact integers since no
  claim depends on floating-point rounding);
* `src/llm_client.py` — `LLMClient.create_rag_prompt` (token-budgeted prompt assembly,
  parametrised by an arbitrary token counter).
-/

/-! ## Chunker: `PDFProcessor.chunk_text` (src/pdf_processor.py) -/

/-- Python whitespace test used by `str.strip()` (ASCII whitespace characters). -/
def pyIsSpace (c : Char) : Bool :=
  c = ' ' || c = '\t' || c = '\n' || c = '\x0d' || c = '\x0b' || c = '\x0c'

/-- Python `str.strip()`: remove leading and trailing whitespace. -/
def pyStrip (l : List Char) : List Char :=
  (((l.dropWhile pyIsSpace).reverse).dropWhile pyIsSpace).reverse

/-- Python `text.rfind(c, s, e)`: the highest index `i` with `s ≤ i < e` and
`l[i] = c`, or `-1` when there is none. -/
def rfindChar (l : List Char) (c : Char) (s e : Nat) : Int :=
  (List.range l.length).foldl
    (fun acc i => if s ≤ i ∧ i < e ∧ l.get? i = some c then (i : Int) else acc) (-1)

/-- The cut position computed by one iteration of `chunk_text`'s loop:
`end = min(start + chunk_size, len(text))`, adjusted backwards to the rightmost
sentence terminator (`.`, `!`, `?`, terminator included) or, failing that, to the
rightmost space (space excluded), whenever the tentative cut is interior. -/
def chunkEnd (l : List Char) (cs start : Nat) : Nat :=
  let e := min (start + cs) l.length
  if e < l.length then
    let se := max (rfindChar l '.' start e) (max (rfindChar l '!' start e) (rfindChar l '?' start e))
    if (start : Int) < se then se.toNat + 1
    else
      let ls := rfindChar l ' ' start e
      if (start : Int) < ls then ls.toNat
      else e
  else e

/-- The next start position: `new_start = end - overlap`, forced to `start + 1`
whenever `new_start ≤ start` ("prevent infinite loop" guard in the source). -/
def chunkNextStart (l : List Char) (cs ov start : Nat) : Nat :=
  if chunkEnd l cs start - ov ≤ start then start + 1 else chunkEnd l cs start - ov

/-- The chunk emitted at `start`: `text[start:end].strip()`. -/
def chunkAt (l : List Char) (cs start : Nat) : List Char :=
  pyStrip ((l.drop start).take (chunkEnd l cs start - start))

/-- Fuel-indexed body of the `while start < len(text)` loop of `chunk_text`.
The fuel argument only makes the recursion structural; `chunkLoop` below supplies
enough fuel for it never to run out (the loop makes strict progress). -/
def chunkLoopF (l : List Char) (cs ov : Nat) : Nat → Nat → List (List Char) × Nat
  | 0, _ => ([], 0)
  | fuel + 1, start =>
    if start < l.length then
      ((if chunkAt l cs start = []
          then (chunkLoopF l cs ov fuel (chunkNextStart l cs ov start)).1
          else chunkAt l cs start :: (chunkLoopF l cs ov fuel (chunkNextStart l cs ov start)).1),
       (chunkLoopF l cs ov fuel (chunkNextStart l cs ov start)).2 + 1)
    else ([], 0)

/-- The `while start < len(text)` loop of `chunk_text`, returning the emitted
chunks (empty-after-strip chunks are skipped) together with the number of loop
iterations performed. -/
def chunkLoop (l : List Char) (cs ov : Nat) (start : Nat) : List (List Char) × Nat :=
  chunkLoopF l cs ov (l.length - start) start

/-- `PDFProcessor.chunk_text(text, chunk_size, overlap)`: a text of length at most
`chunk_size` is returned as the single (untrimmed) chunk `[text]`; otherwise the
scanning loop runs from `start = 0`. -/
def chunk_text (l : List Char) (cs ov : Nat) : List (List Char) :=
  if l.length ≤ cs then [l] else (chunkLoop l cs ov 0).1

/-- Number of loop iterations performed by `chunk_text` (the short-text early
return performs none). -/
def chunkIterations (l : List Char) (cs ov : Nat) : Nat :=
  if l.length ≤ cs then 0 else (chunkLoop l cs ov 0).2

/-! ## Vector index: `VectorDatabase` (src/vector_db.py) -/

/-- Per-chunk metadata record; the source only ever inspects the `filename` key. -/
structure Meta where
  filename : String
deriving DecidableEq, Repr

/-- A FAISS `IndexFlatIP`: a fixed dimension and the stored vectors in insertion
order.  Vector components are exact integers (`faiss` uses float32; no claim in
scope depends on rounding). -/
structure FaissIndex where
  d : Nat
  vecs : List (List Int)
deriving DecidableEq, Repr

/-- In-memory state of a `VectorDatabase` instance: constructor arguments
`db_path` and `embedding_dimension`, the lazily created FAISS index, and the
parallel `documents` (metadata) and `chunks` (text) stores. -/
structure VectorDatabase where
  db_path : String
  embedding_dimension : Nat
  index : Option FaissIndex
  documents : List Meta
  chunks : List String
deriving DecidableEq, Repr

/-- `VectorDatabase.__init__(db_path, embedding_dimension)`. -/
def initDB (path : String) (dim : Nat) : VectorDatabase :=
  { db_path := path, embedding_dimension := dim, index := none, documents := [], chunks := [] }

/-- `VectorDatabase.create_index`: allocates `faiss.IndexFlatIP(self.embedding_dimension)`
(the GPU relocation attempt does not change the index contents). -/
def createIndex (db : VectorDatabase) : VectorDatabase :=
  { db with index := some { d := db.embedding_dimension, vecs := [] } }

/-- `faiss.Index.add`: appends the batch if every vector matches the index
dimension, otherwise raises (modelled as an error and no mutation). -/
def faissAdd (idx : FaissIndex) (embeddings : List (List Int)) : Except String FaissIndex :=
  if embeddings.all (fun v => v.length == idx.d) then
    .ok { idx with vecs := idx.vecs ++ embeddings }
  else
    .error "dimension mismatch"

/-- `VectorDatabase.add_documents(embeddings, chunks, document_metadata)`:
creates the index on first use, adds the embeddings to FAISS, then extends the
chunk and metadata stores.  Returns the state after the call together with
`none` on success or `some err` when the FAISS add raised (in which case the
extensions are never reached, but a freshly created index persists). -/
def add_documents (db : VectorDatabase) (embeddings : List (List Int))
    (chunks : List String) (document_metadata : List Meta) : VectorDatabase × Option String :=
  let db1 := match db.index with
    | none => createIndex db
    | some _ => db
  match db1.index with
  | none => (db1, some "no index")
  | some idx =>
    match faissAdd idx embeddings with
    | .error e => (db1, some e)
    | .ok idx2 =>
      ({ db1 with
          index := some idx2,
          chunks := db1.chunks ++ chunks,
          documents := db1.documents ++ document_metadata }, none)

/-- Number of vectors currently stored (`self.index.ntotal`, or 0 with no index). -/
def vecCount (db : VectorDatabase) : Nat :=
  match db.index with
  | none => 0
  | some idx => idx.vecs.length

/-- The dimension the next `add` must match: the allocated index's dimension, or
`embedding_dimension` for the index that `create_index` is about to allocate. -/
def effDim (db : VectorDatabase) : Nat :=
  match db.index with
  | none => db.embedding_dimension
  | some idx => idx.d

/-- A state whose chunk and metadata stores are at least as long as the vector
store — the shape every run of matched `add_documents` calls maintains. -/
def consistent (db : VectorDatabase) : Bool :=
  match db.index with
  | none => true
  | some idx => idx.vecs.length ≤ db.chunks.length && idx.vecs.length ≤ db.documents.length

/-- Inner product of two stored vectors (`faiss.IndexFlatIP` similarity). -/
def dotProduct (a b : List Int) : Int :=
  (List.zipWith (fun x y => x * y) a b).sum

/-- FAISS result order: higher score first, ties by ascending stored position. -/
def hitLE (a b : Nat × Int) : Prop :=
  b.2 < a.2 ∨ (a.2 = b.2 ∧ a.1 ≤ b.1)

instance hitLE.decRel : DecidableRel hitLE := fun a b => by
  unfold hitLE
  infer_instance

instance hitLE.total : IsTotal (Nat × Int) hitLE :=
  ⟨fun a b => by unfold hitLE; omega⟩

instance hitLE.isTrans : IsTrans (Nat × Int) hitLE :=
  ⟨fun a b c hab hbc => by unfold hitLE at *; omega⟩

/-- `faiss.IndexFlatIP.search(q, n)`: score every stored vector by inner product
with the query and return the `n` best `(position, score)` pairs, best first. -/
def faissSearch (idx : FaissIndex) (q : List Int) (n : Nat) : List (Nat × Int) :=
  (List.insertionSort hitLE
    ((List.range idx.vecs.length).map (fun j => (j, dotProduct q (idx.vecs.getD j []))))).take n

/-- One element of the list `VectorDatabase.search` returns. -/
structure SearchResult where
  chunk : String
  metadata : Meta
  similarity_score : Int
  rank : Nat
deriving DecidableEq, Repr

/-- The result-building loop of `VectorDatabase.search`: walks the hits with the
`enumerate` counter `i`, keeps a hit only if its position is in range for the
chunk store (`if idx < len(self.chunks)`), and reads `self.documents[idx]`
unguarded — an out-of-range metadata read raises (modelled as `.error`). -/
def buildResults (chunks : List String) (docs : List Meta) : Nat → List (Nat × Int) → Except String (List SearchResult)
  | _, [] => .ok []
  | i, (idx, score) :: rest =>
    if h : idx < chunks.length then
      if h2 : idx < docs.length then
        match buildResults chunks docs (i + 1) rest with
        | .error e => .error e
        | .ok rs =>
          .ok ({ chunk := chunks.get ⟨idx, h⟩, metadata := docs.get ⟨idx, h2⟩,
                 similarity_score := score, rank := i + 1 } :: rs)
      else .error "IndexError"
    else buildResults chunks docs (i + 1) rest

/-- `VectorDatabase.search(query_embedding, k)`: empty result on a missing or
empty index, otherwise the FAISS top-`min k ntotal` hits filtered and packaged
by `buildResults`. -/
def searchDB (db : VectorDatabase) (q : List Int) (k : Nat) : Except String (List SearchResult) :=
  match db.index with
  | none => .ok []
  | some idx =>
    if idx.vecs.length = 0 then .ok []
    else buildResults db.chunks db.documents 0 (faissSearch idx q (min k idx.vecs.length))

/-- Value of `VectorDatabase.get_stats()`. -/
inductive Stats where
  | noIndex : Stats
  | info (total_documents total_chunks vectors_in_index embedding_dimension : Nat)
      (database_path : String) : Stats
deriving DecidableEq, Repr

/-- `VectorDatabase.get_stats`: a status marker with no index, otherwise the
distinct-filename count, chunk count, vector count, configured dimension and path. -/
def get_stats (db : VectorDatabase) : Stats :=
  match db.index with
  | none => .noIndex
  | some idx =>
    .info (db.documents.map Meta.filename).dedup.length db.chunks.length
      idx.vecs.length db.embedding_dimension db.db_path

/-- One on-disk artifact: absent, unreadable (any parse/shape failure while
reading it), or a well-formed value of the shape `save` writes. -/
inductive Artifact (α : Type) where
  | missing : Artifact α
  | corrupt : Artifact α
  | good : α → Artifact α
deriving DecidableEq, Repr

/-- A successfully parsed `metadata.json` object.  `json.load` succeeds on any
valid JSON, so each key `load` later looks up may be absent (`none`); `save`
always writes all three.  Only `total_documents` and `total_chunks` are ever
read back (in `load`'s summary prints); `embedding_dimension` is written but
never read. -/
structure MetaHeader where
  total_documents : Option Nat
  total_chunks : Option Nat
  embedding_dimension : Option Nat
deriving DecidableEq, Repr

/-- A successfully unpickled `chunks.pkl` payload.  `pickle.load` succeeds on
any well-formed pickle, so each key may be absent (`none`); the lookups
`data[\x27chunks\x27]` and `data[\x27documents\x27]` only happen at assignment
time inside `load`. -/
structure ChunksData where
  chunks : Option (List String)
  documents : Option (List Meta)
deriving DecidableEq, Repr

/-- The three files of one database directory. -/
structure Disk where
  indexArt : Artifact FaissIndex
  metaArt : Artifact MetaHeader
  chunksArt : Artifact ChunksData
deriving DecidableEq, Repr

/-- `VectorDatabase.save`: with no index nothing is written; otherwise all three
artifacts are (re)written from the in-memory state. -/
def save (db : VectorDatabase) (disk : Disk) : Disk :=
  match db.index with
  | none => disk
  | some idx =>
    { indexArt := .good idx,
      metaArt := .good
        { total_documents := some (db.documents.map Meta.filename).dedup.length,
          total_chunks := some db.chunks.length,
          embedding_dimension := some db.embedding_dimension },
      chunksArt := .good { chunks := some db.chunks, documents := some db.documents } }

/-- `VectorDatabase.load`, step for step with src/vector_db.py:156-204: returns
`false` with the state untouched when any of the three files is missing; inside
the `try` it then performs, in order, `faiss.read_index` (assigning
`self.index`), `json.load` of the header, `pickle.load` of the chunk store,
`self.chunks = data[\x27chunks\x27]`, `self.documents = data[\x27documents\x27]`,
and finally the summary prints that look up `metadata[\x27total_documents\x27]`
and `metadata[\x27total_chunks\x27]`.  A failure at any step (unreadable file, or
a missing key at its lookup site) returns `false` with every assignment already
made left in place — so a late failure can leave the index, the chunk store, and
even the metadata store already replaced.  The header's `embedding_dimension` is
never read, so no dimension consistency is ever checked. -/
def load (db : VectorDatabase) (disk : Disk) : Bool × VectorDatabase :=
  if disk.indexArt = Artifact.missing ∨ disk.metaArt = Artifact.missing ∨
      disk.chunksArt = Artifact.missing then
    (false, db)
  else
    match disk.indexArt with
    | .good idx =>
      let db1 := { db with index := some idx }
      match disk.metaArt with
      | .good mj =>
        match disk.chunksArt with
        | .good pd =>
          match pd.chunks with
          | none => (false, db1)
          | some cs =>
            let db2 := { db1 with chunks := cs }
            match pd.documents with
            | none => (false, db2)
            | some ds =>
              let db3 := { db2 with documents := ds }
              match mj.total_documents with
              | none => (false, db3)
              | some _ =>
                match mj.total_chunks with
                | none => (false, db3)
                | some _ => (true, db3)
        | _ => (false, db1)
      | _ => (false, db1)
    | _ => (false, db)

/-! ## Context assembly: `LLMClient.create_rag_prompt` (src/llm_client.py) -/

/-- The fixed system preamble of `create_rag_prompt` (verbatim from the source). -/
def systemPrompt : String :=
  "\nYou are Charles Spurgeon. \nInstructions:\n1. Use ONLY the information provided in the context to answer the question\n2. If the context doesn\x27t contain enough information to answer the question, demand that the user stay focused on theological matters. \n3. Cite the relevant document names when possible\n5. If asked about something not in the context, explain that you can only answer based on the provided documents\n6. IMPORTANT: Speak in the first person, as if you were Charles Spurgeon--using a passionate, 19th century preacher\x27s diction. Try to give decisive answers. \n\nContext from documents:\n"

/-- The source-attribution formatting of one retrieved chunk. -/
def fmtChunk (r : SearchResult) : String :=
  "\n--- From " ++ r.metadata.filename ++ " ---\n" ++ r.chunk ++ "\n"

/-- The chunk-selection loop of `create_rag_prompt`: starting from the running
total `total` (initialised to the token count of preamble+query), formats each
chunk in order, and `break`s at the first whose tokens would push the total past
`maxTok`; `tc` is the token counter (`self.count_tokens`). -/
def selectChunks (tc : String → Nat) (maxTok : Nat) : Nat → List SearchResult → List String
  | _, [] => []
  | total, r :: rest =>
    if total + tc (fmtChunk r) > maxTok then []
    else fmtChunk r :: selectChunks tc maxTok (total + tc (fmtChunk r)) rest

/-- `LLMClient.create_rag_prompt(query, relevant_chunks, max_context_tokens)`:
the preamble, the included context parts, then the question framing. -/
def createRagPrompt (tc : String → Nat) (query : String) (relevant_chunks : List SearchResult)
    (maxTok : Nat) : String :=
  systemPrompt
    ++ String.join (selectChunks tc maxTok (tc (systemPrompt ++ query)) relevant_chunks)
    ++ "\n\nQuestion: " ++ query ++ "\n\nAnswer:"

/-! ## Concrete states used by witnesses and counterexamples -/

/-- Concrete two-entry consistent state used by the C1 witness. -/
def dbC1 : VectorDatabase :=
  { db_path := "db", embedding_dimension := 2,
    index := some { d := 2, vecs := [[2, 0], [1, 0]] },
    documents := [{ filename := "a" }, { filename := "b" }],
    chunks := ["x", "y"] }

/-- A state whose chunk store outruns its metadata store: two vectors, two
chunks, one metadata record. -/
def dbShortDocs : VectorDatabase :=
  { db_path := "db", embedding_dimension := 2,
    index := some { d := 2, vecs := [[1, 0], [0, 1]] },
    documents := [{ filename := "f" }],
    chunks := ["a", "b"] }

/-- A non-empty prior in-memory state for the load counterexample. -/
def dbPrior : VectorDatabase :=
  { db_path := "db", embedding_dimension := 4,
    index := some { d := 4, vecs := [[1, 0, 0, 0]] },
    documents := [{ filename := "f" }],
    chunks := ["x"] }

/-- A directory with all three artifacts absent. -/
def diskEmpty : Disk :=
  { indexArt := .missing, metaArt := .missing, chunksArt := .missing }

/-- A one-entry state built with `embedding_dimension = 4`, for the round trip. -/
def dbRound : VectorDatabase :=
  { db_path := "db", embedding_dimension := 4,
    index := some { d := 4, vecs := [[1, 0, 0, 0]] },
    documents := [{ filename := "f.pdf" }],
    chunks := ["hello"] }

/-- A one-element ranked-chunk list for the C7 counterexample. -/
def chunkC7 : SearchResult :=
  { chunk := "c", metadata := { filename := "f" }, similarity_score := 0, rank := 1 }

/-- The constant-1 token counter (a legitimate non-negative token counter). -/
def tcOne : String → Nat := fun _ => 1

/-- The constant-0 token counter. -/
def tcZero : String → Nat := fun _ => 0

/-! ## Loop unfolding lemmas for the chunker -/

theorem chunkNextStart_gt (l : List Char) (cs ov start : Nat) :
    start < chunkNextStart l cs ov start := by
  unfold chunkNextStart
  split <;> omega

/-- Fuel irrelevance: any fuel at least `l.length - start` gives the loop's value. -/
theorem chunkLoopF_fuel (l : List Char) (cs ov : Nat) :
    ∀ f₁ f₂ start, l.length - start ≤ f₁ → l.length - start ≤ f₂ →
      chunkLoopF l cs ov f₁ start = chunkLoopF l cs ov f₂ start := by
  intro f₁
  induction f₁ with
  | zero =>
    intro f₂ start h1 _
    have hs : ¬ start < l.length := by omega
    cases f₂ with
    | zero => rfl
    | succ f₂ => simp [chunkLoopF, hs]
  | succ f₁ ih =>
    intro f₂ start h1 h2
    by_cases hs : start < l.length
    · cases f₂ with
      | zero => omega
      | succ f₂ =>
        have hns := chunkNextStart_gt l cs ov start
        have := ih f₂ (chunkNextStart l cs ov start) (by omega) (by omega)
        simp [chunkLoopF, hs, this]
    · cases f₂ with
      | zero => simp [chunkLoopF, hs]
      | succ f₂ => simp [chunkLoopF, hs]

/-- Unfolding equation for `chunkLoop` at a live position. -/
theorem chunkLoop_cons (l : List Char) (cs ov start : Nat) (h : start < l.length) :
    chunkLoop l cs ov start =
      ((if chunkAt l cs start = []
          then (chunkLoop l cs ov (chunkNextStart l cs ov start)).1
          else chunkAt l cs start :: (chunkLoop l cs ov (chunkNextStart l cs ov start)).1),
       (chunkLoop l cs ov (chunkNextStart l cs ov start)).2 + 1) := by
  have hns := chunkNextStart_gt l cs ov start
  have hf : l.length - start = (l.length - start - 1) + 1 := by omega
  unfold chunkLoop
  rw [hf]
  simp only [chunkLoopF, if_pos h]
  rw [chunkLoopF_fuel l cs ov (l.length - start - 1) (l.length - chunkNextStart l cs ov start)
        (chunkNextStart l cs ov start) (by omega) (by omega)]

/-- Unfolding equation for `chunkLoop` past the end of the text. -/
theorem chunkLoop_nil (l : List Char) (cs ov start : Nat) (h : ¬ start < l.length) :
    chunkLoop l cs ov start = ([], 0) := by
  unfold chunkLoop
  have : l.length - start = 0 := by omega
  rw [this]
  rfl

/-! ## Chunker support lemmas -/

theorem rfindChar_lt (l : List Char) (c : Char) (s e : Nat) :
    rfindChar l c s e < (e : Int) := by
  unfold rfindChar
  have key : ∀ (L : List Nat) (acc : Int), acc < (e : Int) →
      L.foldl (fun acc i => if s ≤ i ∧ i < e ∧ l.get? i = some c then (i : Int) else acc) acc
        < (e : Int) := by
    intro L
    induction L with
    | nil => intro acc hacc; exact hacc
    | cons x xs ih =>
      intro acc hacc
      simp only [List.foldl_cons]
      apply ih
      split
      · next hx => exact_mod_cast hx.2.1
      · exact hacc
  exact key _ _ (by omega)

theorem chunkEnd_bounds (l : List Char) (cs start : Nat)
    (hs : start < l.length) (hcs : 1 ≤ cs) :
    start < chunkEnd l cs start ∧ chunkEnd l cs start ≤ l.length := by
  unfold chunkEnd
  have h1 := rfindChar_lt l '.' start (min (start + cs) l.length)
  have h2 := rfindChar_lt l '!' start (min (start + cs) l.length)
  have h3 := rfindChar_lt l '?' start (min (start + cs) l.length)
  have h4 := rfindChar_lt l ' ' start (min (start + cs) l.length)
  simp only []
  split
  · split
    · next hgt => constructor <;> omega
    · split
      · next hgt => constructor <;> omega
      · constructor <;> omega
  · constructor <;> omega

theorem chunkNextStart_le (l : List Char) (cs ov start : Nat)
    (hs : start < l.length) (hcs : 1 ≤ cs) :
    chunkNextStart l cs ov start ≤ chunkEnd l cs start := by
  have hb := chunkEnd_bounds l cs start hs hcs
  unfold chunkNextStart
  split <;> omega

theorem count_dropWhile (p : Char → Bool) (c : Char) (hc : p c = false) :
    ∀ l : List Char, (l.dropWhile p).count c = l.count c := by
  intro l
  induction l with
  | nil => rfl
  | cons a t ih =>
    by_cases hpa : p a
    · have hne : a ≠ c := fun h => by rw [h] at hpa; rw [hpa] at hc; cases hc
      simp [List.dropWhile_cons, hpa, ih, List.count_cons, hne]
    · simp [List.dropWhile_cons, hpa]

theorem count_pyStrip (c : Char) (hc : pyIsSpace c = false) (l : List Char) :
    (pyStrip l).count c = l.count c := by
  unfold pyStrip
  rw [List.count_reverse, count_dropWhile _ _ hc, List.count_reverse,
    count_dropWhile _ _ hc]

theorem mem_pyStrip (c : Char) (hc : pyIsSpace c = false) (l : List Char)
    (hm : c ∈ l) : c ∈ pyStrip l := by
  have h1 : 0 < l.count c := List.count_pos_iff.mpr hm
  have h2 : 0 < (pyStrip l).count c := by rw [count_pyStrip c hc]; exact h1
  exact List.count_pos_iff.mp h2

theorem chunkLoop_iters (l : List Char) (cs ov start : Nat) :
    (chunkLoop l cs ov start).2 ≤ l.length - start := by
  by_cases h : start < l.length
  · rw [chunkLoop_cons l cs ov start h]
    have hns := chunkNextStart_gt l cs ov start
    have ih := chunkLoop_iters l cs ov (chunkNextStart l cs ov start)
    simp only []
    omega
  · rw [chunkLoop_nil l cs ov start h]
    simp
termination_by l.length - start
decreasing_by
  have := chunkNextStart_gt l cs ov start
  omega

theorem drop_split (l : List Char) (s e : Nat) (h : s ≤ e) :
    l.drop s = (l.drop s).take (e - s) ++ l.drop e := by
  conv_lhs => rw [← List.take_append_drop (e - s) (l.drop s)]
  rw [List.drop_drop]
  congr 2
  omega

theorem mem_drop_mono {c : Char} {l : List Char} {n m : Nat} (h : n ≤ m)
    (hc : c ∈ l.drop m) : c ∈ l.drop n := by
  have heq : l.drop m = (l.drop n).drop (m - n) := by
    rw [List.drop_drop]
    congr 1
    omega
  rw [heq] at hc
  exact List.drop_subset _ _ hc

theorem chunkLoop_cover (l : List Char) (cs ov start : Nat) (hcs : 1 ≤ cs)
    (c : Char) (hsp : pyIsSpace c = false) (hm : c ∈ l.drop start) :
    ∃ ch ∈ (chunkLoop l cs ov start).1, c ∈ ch := by
  have hstart : start < l.length := by
    by_contra hge
    rw [List.drop_eq_nil_of_le (by omega)] at hm
    cases hm
  have hb := chunkEnd_bounds l cs start hstart hcs
  rw [chunkLoop_cons l cs ov start hstart]
  dsimp only
  rw [drop_split l start (chunkEnd l cs start) (by omega)] at hm
  rcases List.mem_append.mp hm with hin | hout
  · have hcm : c ∈ chunkAt l cs start := mem_pyStrip c hsp _ hin
    have hne : chunkAt l cs start ≠ [] := List.ne_nil_of_mem hcm
    rw [if_neg hne]
    exact ⟨chunkAt l cs start, List.mem_cons_self _ _, hcm⟩
  · have hle := chunkNextStart_le l cs ov start hstart hcs
    have hm2 : c ∈ l.drop (chunkNextStart l cs ov start) := mem_drop_mono hle hout
    obtain ⟨ch, hch, hcch⟩ := chunkLoop_cover l cs ov (chunkNextStart l cs ov start) hcs c hsp hm2
    refine ⟨ch, ?_, hcch⟩
    split
    · exact hch
    · exact List.mem_cons_of_mem _ hch
termination_by l.length - start
decreasing_by
  have := chunkNextStart_gt l cs ov start
  omega

theorem chunkLoop_count (l : List Char) (cs start : Nat) (hcs : 1 ≤ cs)
    (c : Char) (hsp : pyIsSpace c = false) :
    ((chunkLoop l cs 0 start).1.flatten).count c = (l.drop start).count c := by
  by_cases hstart : start < l.length
  · have hb := chunkEnd_bounds l cs start hstart hcs
    have hns : chunkNextStart l cs 0 start = chunkEnd l cs start := by
      unfold chunkNextStart
      rw [Nat.sub_zero, if_neg (by omega)]
    have hca : chunkAt l cs start
        = pyStrip ((l.drop start).take (chunkEnd l cs start - start)) := rfl
    have hcount : (l.drop start).count c
        = ((l.drop start).take (chunkEnd l cs start - start)).count c
          + (l.drop (chunkEnd l cs start)).count c := by
      conv_lhs => rw [drop_split l start (chunkEnd l cs start) (by omega)]
      exact List.count_append _ _ _
    have ih := chunkLoop_count l cs (chunkNextStart l cs 0 start) hcs c hsp
    rw [hns] at ih
    rw [chunkLoop_cons l cs 0 start hstart]
    dsimp only
    rw [hns]
    split
    · next hempty =>
      have h0 : ((l.drop start).take (chunkEnd l cs start - start)).count c = 0 := by
        rw [← count_pyStrip c hsp, ← hca, hempty]
        rfl
      rw [ih]
      omega
    · rw [List.flatten_cons, List.count_append, hca, count_pyStrip c hsp, ih]
      omega
  · rw [chunkLoop_nil l cs 0 start hstart]
    rw [List.drop_eq_nil_of_le (by omega)]
    rfl
termination_by l.length - start
decreasing_by
  have := chunkNextStart_gt l cs 0 start
  omega

/-! ## Claim C4 -/

/-- Claim C4: for every text and every pair of parameters with
`chunk_size > overlap ≥ 0`, `chunk_text` terminates (it is a total function in
this development), the number of loop iterations it performs is at most
`len(text) + 1`, the start position strictly increases on every iteration, and
`next_start` is forced to `start + 1` whenever `end - overlap ≤ start`. -/
theorem chunk_text_termination (l : List Char) (cs ov : Nat) (_h : ov < cs) :
    chunkIterations l cs ov ≤ l.length + 1 ∧
    (∀ start, start < l.length → start < chunkNextStart l cs ov start) ∧
    (∀ start, chunkEnd l cs start - ov ≤ start → chunkNextStart l cs ov start = start + 1) := by
  refine ⟨?_, fun start _ => chunkNextStart_gt l cs ov start, fun start hf => ?_⟩
  · unfold chunkIterations
    split
    · omega
    · have := chunkLoop_iters l cs ov 0
      omega
  · unfold chunkNextStart
    rw [if_pos hf]

/-- Witness for C4 at the concrete text `"ab cd"`, `chunk_size = 3`, `overlap = 0`. -/
theorem chunk_text_termination_w :
    0 < 3 ∧ chunkIterations "ab cd".toList 3 0 ≤ "ab cd".toList.length + 1 :=
  ⟨by decide, (chunk_text_termination "ab cd".toList 3 0 (by decide)).1⟩

/-! ## Claim C5 -/

/-- Claim C5 counterexample: the short-text branch returns the input untrimmed
(`" a "`, not `"a"`), and the empty input yields the one-element sequence
`[""]`, not the empty sequence. -/
theorem chunk_text_short_cex :
    chunk_text " a ".toList 5 1 ≠ [pyStrip " a ".toList] ∧
    chunk_text "".toList 5 1 ≠ [] := by decide

/-- Claim C5 (amended): for every text with `len(text) ≤ chunk_size`
(`0 ≤ overlap < chunk_size`), `chunk_text` returns a sequence containing exactly
one element equal to the input — unchanged, not trimmed — and in particular the
empty input yields `[""]` rather than the empty sequence. -/
theorem chunk_text_short (l : List Char) (cs ov : Nat) (_hov : ov < cs)
    (hlen : l.length ≤ cs) : chunk_text l cs ov = [l] := by
  unfold chunk_text
  rw [if_pos hlen]

/-- Witness for the amended C5 at `" a "`, `chunk_size = 5`, `overlap = 1`. -/
theorem chunk_text_short_w :
    1 < 5 ∧ " a ".toList.length ≤ 5 ∧ chunk_text " a ".toList 5 1 = [" a ".toList] :=
  ⟨by decide, by decide, chunk_text_short " a ".toList 5 1 (by decide) (by decide)⟩

/-! ## Claim C6 -/

/-- Claim C6 counterexample: in `"ab cd"` with `chunk_size = 3, overlap = 0` the
interior space sits exactly at a word-boundary cut and is stripped from both
neighbouring chunks, so a character of the trimmed text appears in no chunk. -/
theorem chunk_text_loss_cex :
    ' ' ∈ pyStrip "ab cd".toList ∧
    ∀ ch ∈ chunk_text "ab cd".toList 3 0, ' ' ∉ ch := by decide

/-- Claim C6 (amended): for every text and `chunk_size > overlap ≥ 0`, every
non-whitespace character of the text appears in at least one chunk (whitespace
characters at chunk boundaries can be lost to stripping); and for `overlap = 0`
the chunks cover the non-whitespace content exactly: each non-whitespace
character occurs in the concatenation of all chunks exactly as often as in the
text, so chunks neither overlap nor drop non-whitespace content. -/
theorem chunk_text_coverage (l : List Char) (cs ov : Nat) (_h : ov < cs) :
    (∀ c ∈ l, pyIsSpace c = false → ∃ ch ∈ chunk_text l cs ov, c ∈ ch) ∧
    (∀ c, pyIsSpace c = false → ((chunk_text l cs 0).flatten).count c = l.count c) := by
  constructor
  · intro c hcl hsp
    unfold chunk_text
    split
    · exact ⟨l, by simp, hcl⟩
    · exact chunkLoop_cover l cs ov 0 (by omega) c hsp (by simpa using hcl)
  · intro c hsp
    unfold chunk_text
    split
    · simp
    · have := chunkLoop_count l cs 0 (by omega) c hsp
      simpa using this

/-- Witness for the amended C6 at `"ab cd"`, `chunk_size = 3`, `overlap = 0`. -/
theorem chunk_text_coverage_w :
    0 < 3 ∧ ∃ ch ∈ chunk_text "ab cd".toList 3 0, 'a' ∈ ch :=
  ⟨by decide, (chunk_text_coverage "ab cd".toList 3 0 (by decide)).1 'a' (by decide) (by decide)⟩

/-! ## Vector index support lemmas -/

theorem buildResults_ok (chunks : List String) (docs : List Meta) :
    ∀ (hits : List (Nat × Int)) (i : Nat),
      (∀ p ∈ hits, p.1 < chunks.length ∧ p.1 < docs.length) →
      ∃ rs, buildResults chunks docs i hits = .ok rs ∧ rs.length = hits.length ∧
        rs.map (fun r => r.similarity_score) = hits.map (fun p => p.2) := by
  intro hits
  induction hits with
  | nil => exact fun i _ => ⟨[], rfl, rfl, rfl⟩
  | cons p rest ih =>
    intro i hall
    obtain ⟨idx, score⟩ := p
    obtain ⟨h1, h2⟩ := hall (idx, score) (List.mem_cons_self _ _)
    obtain ⟨rs, hrs, hlen, hmap⟩ := ih (i + 1) (fun q hq => hall q (List.mem_cons_of_mem _ hq))
    refine ⟨{ chunk := chunks.get ⟨idx, h1⟩, metadata := docs.get ⟨idx, h2⟩,
              similarity_score := score, rank := i + 1 } :: rs, ?_, ?_, ?_⟩
    · simp only [buildResults, dif_pos h1, dif_pos h2, hrs]
    · simp [hlen]
    · simp [hmap]

theorem sorted_pairwise_scores (hits : List (Nat × Int))
    (h : List.Sorted hitLE hits) :
    List.Pairwise (fun a b : Nat × Int => b.2 ≤ a.2) hits :=
  h.imp (fun hab => by unfold hitLE at hab; omega)

/-! ## Claim C1 -/

/-- Claim C1: on a consistent index state with `N` stored entries, `search` with
any `k ≥ N` succeeds with exactly `N` results whose similarity scores are
non-increasing from first to last; with an empty or never-created index it
returns the empty sequence rather than raising. -/
theorem search_topk (db : VectorDatabase) (q : List Int) (k : Nat)
    (hc : consistent db = true) (hk : vecCount db ≤ k) :
    ∃ res, searchDB db q k = .ok res ∧ res.length = vecCount db ∧
      (vecCount db = 0 → res = []) ∧
      List.Chain' (fun a b => b.similarity_score ≤ a.similarity_score) res := by
  match hidx : db.index with
  | none =>
    refine ⟨[], by simp [searchDB, hidx], by simp [vecCount, hidx], fun _ => rfl, by simp⟩
  | some idx =>
    have hvc : vecCount db = idx.vecs.length := by simp [vecCount, hidx]
    by_cases hz : idx.vecs.length = 0
    · exact ⟨[], by simp [searchDB, hidx, hz], by simp [hvc, hz], fun _ => rfl, by simp⟩
    · have hcons : idx.vecs.length ≤ db.chunks.length ∧ idx.vecs.length ≤ db.documents.length := by
        have := hc
        simp only [consistent, hidx, Bool.and_eq_true, decide_eq_true_eq] at this
        exact this
      have hmin : min k idx.vecs.length = idx.vecs.length := by omega
      have hlen_sorted :
          (List.insertionSort hitLE ((List.range idx.vecs.length).map
            (fun j => (j, dotProduct q (idx.vecs.getD j []))))).length = idx.vecs.length := by
        rw [List.length_insertionSort, List.length_map, List.length_range]
      have hfs : faissSearch idx q (min k idx.vecs.length) =
          List.insertionSort hitLE ((List.range idx.vecs.length).map
            (fun j => (j, dotProduct q (idx.vecs.getD j [])))) := by
        unfold faissSearch
        rw [hmin]
        exact List.take_of_length_le (le_of_eq hlen_sorted)
      have hmem : ∀ p ∈ List.insertionSort hitLE ((List.range idx.vecs.length).map
            (fun j => (j, dotProduct q (idx.vecs.getD j [])))),
          p.1 < db.chunks.length ∧ p.1 < db.documents.length := by
        intro p hp
        rw [List.mem_insertionSort] at hp
        obtain ⟨j, hj, rfl⟩ := List.mem_map.mp hp
        have hjn : j < idx.vecs.length := List.mem_range.mp hj
        exact ⟨by omega, by omega⟩
      obtain ⟨rs, hrs, hlen, hmap⟩ := buildResults_ok db.chunks db.documents _ 0 hmem
      have hsorted := List.sorted_insertionSort hitLE ((List.range idx.vecs.length).map
        (fun j => (j, dotProduct q (idx.vecs.getD j []))))
      have hpair := sorted_pairwise_scores _ hsorted
      have hchain : List.Chain' (fun a b : SearchResult =>
          b.similarity_score ≤ a.similarity_score) rs := by
        have h1 : List.Pairwise (fun x y : Int => y ≤ x)
            (rs.map (fun r => r.similarity_score)) := by
          rw [hmap]
          exact List.pairwise_map.mpr hpair
        exact (List.pairwise_map.mp h1).chain'
      refine ⟨rs, ?_, ?_, fun h0 => absurd (hvc ▸ h0) hz, hchain⟩
      · simp only [searchDB, hidx, if_neg hz]
        rw [hfs]
        exact hrs
      · rw [hlen, hlen_sorted, hvc]

/-- Witness for C1: a two-entry consistent state searched with `k = 5`. -/
theorem search_topk_w :
    consistent dbC1 = true ∧ vecCount dbC1 ≤ 5 ∧
    ∃ res, searchDB dbC1 [1, 0] 5 = .ok res ∧ res.length = vecCount dbC1 ∧
      (vecCount dbC1 = 0 → res = []) ∧
      List.Chain' (fun a b => b.similarity_score ≤ a.similarity_score) res :=
  ⟨by decide, by decide, search_topk dbC1 [1, 0] 5 (by decide) (by decide)⟩

/-! ## Claim C10 -/

theorem buildResults_safe (chunks : List String) (docs : List Meta)
    (hld : chunks.length ≤ docs.length) :
    ∀ (hits : List (Nat × Int)) (i : Nat),
      ∃ rs, buildResults chunks docs i hits = .ok rs ∧ rs.length ≤ hits.length := by
  intro hits
  induction hits with
  | nil => exact fun _ => ⟨[], rfl, by simp⟩
  | cons p rest ih =>
    intro i
    obtain ⟨idx, score⟩ := p
    obtain ⟨rs, hrs, hlen⟩ := ih (i + 1)
    by_cases h1 : idx < chunks.length
    · have h2 : idx < docs.length := by omega
      refine ⟨{ chunk := chunks.get ⟨idx, h1⟩, metadata := docs.get ⟨idx, h2⟩,
                similarity_score := score, rank := i + 1 } :: rs, ?_, ?_⟩
      · simp only [buildResults, dif_pos h1, dif_pos h2, hrs]
      · simp
        omega
    · refine ⟨rs, ?_, by simp; omega⟩
      simp only [buildResults, dif_neg h1]
      exact hrs

/-- Claim C10 counterexample: in `dbShortDocs` the second hit passes the
chunk-store guard and the unguarded `self.documents[idx]` read raises, so
`search` does fail with an out-of-range access when the stores disagree. -/
theorem search_raises_cex :
    searchDB dbShortDocs [1, 0] 2 = .error "IndexError" := by rfl

/-- Claim C10 (amended): `search` guards each hit against the chunk store only,
silently dropping hits whose position is out of range there (so it can return
fewer than `min k N` results); it never raises provided the metadata store is
at least as long as the chunk store, but the `self.documents[idx]` read is
unguarded, so a metadata store shorter than the chunk store can still raise. -/
theorem search_guarded (db : VectorDatabase) (q : List Int) (k : Nat)
    (h : db.chunks.length ≤ db.documents.length) :
    ∃ res, searchDB db q k = .ok res ∧ res.length ≤ min k (vecCount db) := by
  match hidx : db.index with
  | none => exact ⟨[], by simp [searchDB, hidx], by simp⟩
  | some idx =>
    by_cases hz : idx.vecs.length = 0
    · exact ⟨[], by simp [searchDB, hidx, hz], by simp⟩
    · obtain ⟨rs, hrs, hlen⟩ :=
        buildResults_safe db.chunks db.documents h (faissSearch idx q (min k idx.vecs.length)) 0
      refine ⟨rs, ?_, ?_⟩
      · simp only [searchDB, hidx, if_neg hz]
        exact hrs
      · have hfl : (faissSearch idx q (min k idx.vecs.length)).length ≤ min k idx.vecs.length := by
          unfold faissSearch
          rw [List.length_take]
          omega
        have hvc : vecCount db = idx.vecs.length := by simp [vecCount, hidx]
        omega

/-- Witness for the amended C10 on a consistent two-entry state with `k = 1`. -/
theorem search_guarded_w :
    dbC1.chunks.length ≤ dbC1.documents.length ∧
    ∃ res, searchDB dbC1 [1, 0] 1 = .ok res ∧ res.length ≤ min 1 (vecCount dbC1) :=
  ⟨by decide, search_guarded dbC1 [1, 0] 1 (by decide)⟩

/-! ## Claim C3 -/

/-- Claim C3 counterexample: `add_documents` with 1 embedding but 0 chunks and
0 metadata records does not fail — it succeeds and `vector_count` grows from 0
to 1, so a mismatched call is neither rejected nor all-or-nothing. -/
theorem add_documents_mismatch_cex :
    (add_documents (initDB "db" 2) [[1, 2]] [] []).2 = none ∧
    vecCount (add_documents (initDB "db" 2) [[1, 2]] [] []).1 = 1 ∧
    vecCount (initDB "db" 2) = 0 := by decide

/-- Claim C3 (amended): `add_documents` performs no length validation at all:
any call whose vectors match the index dimension succeeds regardless of the
three sequence lengths, appending each sequence independently — the vector
count grows by the number of embeddings and the chunk and metadata stores by
their own argument lengths. -/
theorem add_documents_no_validation (db : VectorDatabase) (embeddings : List (List Int))
    (chunks : List String) (metadata : List Meta)
    (h : ∀ v ∈ embeddings, v.length = effDim db) :
    (add_documents db embeddings chunks metadata).2 = none ∧
    (add_documents db embeddings chunks metadata).1.chunks = db.chunks ++ chunks ∧
    (add_documents db embeddings chunks metadata).1.documents = db.documents ++ metadata ∧
    vecCount (add_documents db embeddings chunks metadata).1 = vecCount db + embeddings.length := by
  match hidx : db.index with
  | none =>
    have heff : effDim db = db.embedding_dimension := by simp [effDim, hidx]
    have hall : embeddings.all (fun v => v.length == db.embedding_dimension) = true :=
      List.all_eq_true.mpr fun v hv => beq_iff_eq.mpr (heff ▸ h v hv)
    simp [add_documents, createIndex, faissAdd, vecCount, hidx, hall]
  | some idx =>
    have heff : effDim db = idx.d := by simp [effDim, hidx]
    have hall : embeddings.all (fun v => v.length == idx.d) = true :=
      List.all_eq_true.mpr fun v hv => beq_iff_eq.mpr (heff ▸ h v hv)
    simp [add_documents, faissAdd, vecCount, hidx, hall]

/-- Witness for the amended C3: a mismatched call (2 embeddings, 1 chunk,
0 metadata records) succeeds and changes all three stores independently. -/
theorem add_documents_no_validation_w :
    (∀ v ∈ [[5, 6], [7, 8]], List.length v = effDim (initDB "db" 2)) ∧
    ((add_documents (initDB "db" 2) [[5, 6], [7, 8]] ["c"] []).2 = none ∧
      (add_documents (initDB "db" 2) [[5, 6], [7, 8]] ["c"] []).1.chunks
        = (initDB "db" 2).chunks ++ ["c"] ∧
      (add_documents (initDB "db" 2) [[5, 6], [7, 8]] ["c"] []).1.documents
        = (initDB "db" 2).documents ++ [] ∧
      vecCount (add_documents (initDB "db" 2) [[5, 6], [7, 8]] ["c"] []).1
        = vecCount (initDB "db" 2) + 2) :=
  ⟨by decide, add_documents_no_validation (initDB "db" 2) [[5, 6], [7, 8]] ["c"] [] (by decide)⟩

/-! ## Claim C9 -/

/-- Claim C9 counterexample: on a freshly constructed database with
`embedding_dimension = 3`, the very first `add` with a vector of dimension 4
does not allocate a dimension-4 structure — the index is allocated with the
constructor's dimension 3 and the call fails. -/
theorem add_documents_lazy_dim_cex :
    ((add_documents (initDB "db" 3) [[1, 1, 1, 1]] ["c"] [{ filename := "f" }]).2).isSome = true ∧
    effDim (add_documents (initDB "db" 3) [[1, 1, 1, 1]] ["c"] [{ filename := "f" }]).1 = 3 := by
  decide

/-- Claim C9 (amended): the underlying similarity structure is allocated on the
first `add` call using the constructor's `embedding_dimension`, not the
dimension of the first vector in that call; every call (the first included)
containing a vector whose dimension differs from that established dimension
fails with the whole call rejected — the vector count, chunk store, and
metadata store are unchanged, so `stats` still reflects only the earlier
successful calls. -/
theorem add_documents_dim_policy :
    (∀ db (embeddings : List (List Int)) (chunks : List String) (metadata : List Meta),
      db.index = none →
      ∃ i, (add_documents db embeddings chunks metadata).1.index = some i ∧
        i.d = db.embedding_dimension) ∧
    (∀ db (embeddings : List (List Int)) (chunks : List String) (metadata : List Meta)
        (v : List Int), v ∈ embeddings → v.length ≠ effDim db →
      ((add_documents db embeddings chunks metadata).2).isSome = true ∧
      vecCount (add_documents db embeddings chunks metadata).1 = vecCount db ∧
      (add_documents db embeddings chunks metadata).1.chunks = db.chunks ∧
      (add_documents db embeddings chunks metadata).1.documents = db.documents) := by
  constructor
  · intro db embeddings chunks metadata hidx
    by_cases hall : embeddings.all (fun v => v.length == db.embedding_dimension) = true
    · refine ⟨⟨db.embedding_dimension, embeddings⟩, ?_, rfl⟩
      simp [add_documents, createIndex, faissAdd, hidx, hall]
    · refine ⟨⟨db.embedding_dimension, []⟩, ?_, rfl⟩
      simp [add_documents, createIndex, faissAdd, hidx, hall]
  · intro db embeddings chunks metadata v hv hne
    match hidx : db.index with
    | none =>
      have heff : effDim db = db.embedding_dimension := by simp [effDim, hidx]
      have hall : embeddings.all (fun w => w.length == db.embedding_dimension) = false := by
        rw [List.all_eq_false]
        exact ⟨v, hv, by simp [heff ▸ hne]⟩
      simp [add_documents, createIndex, faissAdd, vecCount, hidx, hall]
    | some idx =>
      have heff : effDim db = idx.d := by simp [effDim, hidx]
      have hall : embeddings.all (fun w => w.length == idx.d) = false := by
        rw [List.all_eq_false]
        exact ⟨v, hv, by simp [heff ▸ hne]⟩
      simp [add_documents, faissAdd, vecCount, hidx, hall]

/-- Witness for the amended C9: first call on a dimension-3 instance allocates
dimension 3; a dimension-4 vector makes the call fail with stores unchanged. -/
theorem add_documents_dim_policy_w :
    (initDB "db" 3).index = none ∧
    (∃ i, (add_documents (initDB "db" 3) [[9, 9]] [] []).1.index = some i ∧
      i.d = (initDB "db" 3).embedding_dimension) ∧
    ([1, 1, 1, 1] : List Int) ∈ [[1, 1, 1, 1]] ∧
    List.length ([1, 1, 1, 1] : List Int) ≠ effDim (initDB "db" 3) ∧
    (((add_documents (initDB "db" 3) [[1, 1, 1, 1]] ["c"] []).2).isSome = true ∧
      vecCount (add_documents (initDB "db" 3) [[1, 1, 1, 1]] ["c"] []).1
        = vecCount (initDB "db" 3) ∧
      (add_documents (initDB "db" 3) [[1, 1, 1, 1]] ["c"] []).1.chunks
        = (initDB "db" 3).chunks ∧
      (add_documents (initDB "db" 3) [[1, 1, 1, 1]] ["c"] []).1.documents
        = (initDB "db" 3).documents) :=
  ⟨rfl, add_documents_dim_policy.1 (initDB "db" 3) [[9, 9]] [] [] rfl,
    by decide, by decide,
    add_documents_dim_policy.2 (initDB "db" 3) [[1, 1, 1, 1]] ["c"] [] [1, 1, 1, 1]
      (by decide) (by decide)⟩

/-! ## Claim C2 -/

/-- Claim C2 counterexample: `load` on a non-empty prior state with all three
artifacts missing returns `false` but leaves the prior state fully in place —
the in-memory index state afterwards is not empty. -/
theorem load_cex :
    (load dbPrior diskEmpty).1 = false ∧
    (load dbPrior diskEmpty).2 = dbPrior ∧
    dbPrior.chunks ≠ [] := by decide

/-- Claim C2 (amended): when `load` fails it returns `false` but neither
empties nor rolls back the state: every field assigned before the failing step
keeps its newly loaded value and every later field keeps its pre-call value —
depending on the stage, the state afterwards is unchanged, or has the index
alone replaced, or the index and chunk store replaced, or all three stores
replaced with on-disk values (each replaced field holds exactly the value read
from its artifact, never anything else).  And the header's vector dimension is
never read: whenever all three artifacts are present and readable and the four
keys that `load` actually looks up are present, `load` succeeds and installs
the on-disk values, whatever the header's `embedding_dimension` says — even if
the key is absent. -/
theorem load_fail_behavior (db : VectorDatabase) (disk : Disk) :
    ((load db disk).1 = false →
      ((load db disk).2.index = db.index ∨
        ∃ i, disk.indexArt = Artifact.good i ∧ (load db disk).2.index = some i) ∧
      ((load db disk).2.chunks = db.chunks ∨
        ∃ pd, disk.chunksArt = Artifact.good pd ∧
          pd.chunks = some (load db disk).2.chunks) ∧
      ((load db disk).2.documents = db.documents ∨
        ∃ pd, disk.chunksArt = Artifact.good pd ∧
          pd.documents = some (load db disk).2.documents)) ∧
    (∀ i mj pd cs ds, disk = { indexArt := Artifact.good i, metaArt := Artifact.good mj,
                               chunksArt := Artifact.good pd } →
      pd.chunks = some cs → pd.documents = some ds →
      mj.total_documents.isSome = true → mj.total_chunks.isSome = true →
      (load db disk).1 = true ∧
      (load db disk).2 = { db with index := some i, chunks := cs, documents := ds }) := by
  constructor
  · intro hf
    match hia : disk.indexArt with
    | .missing => simp_all [load]
    | .corrupt => simp_all [load]
    | .good i =>
      match hma : disk.metaArt with
      | .missing => simp_all [load]
      | .corrupt =>
        match hca : disk.chunksArt with
        | .missing => simp_all [load]
        | .corrupt => simp_all [load]
        | .good pd => simp_all [load]
      | .good mj =>
        match hca : disk.chunksArt with
        | .missing => simp_all [load]
        | .corrupt => simp_all [load]
        | .good pd =>
          match hcs : pd.chunks with
          | none => simp_all [load]
          | some cs =>
            match hds : pd.documents with
            | none => simp_all [load]
            | some ds =>
              match htd : mj.total_documents with
              | none => simp_all [load]
              | some td =>
                match htc : mj.total_chunks with
                | none => simp_all [load]
                | some tcn => simp_all [load]
  · intro i mj pd cs ds hd hcs hds htd htc
    subst hd
    rw [Option.isSome_iff_exists] at htd htc
    obtain ⟨td, htd⟩ := htd
    obtain ⟨tcn, htc⟩ := htc
    simp [load, hcs, hds, htd, htc]

/-- Witness for the amended C2: the missing-artifact failure keeps every store
at its pre-call value, and a good-but-dimensionless header still loads. -/
theorem load_fail_behavior_w :
    (load dbPrior diskEmpty).1 = false ∧
    (((load dbPrior diskEmpty).2.index = dbPrior.index ∨
        ∃ i, diskEmpty.indexArt = Artifact.good i ∧
          (load dbPrior diskEmpty).2.index = some i) ∧
      ((load dbPrior diskEmpty).2.chunks = dbPrior.chunks ∨
        ∃ pd, diskEmpty.chunksArt = Artifact.good pd ∧
          pd.chunks = some (load dbPrior diskEmpty).2.chunks) ∧
      ((load dbPrior diskEmpty).2.documents = dbPrior.documents ∨
        ∃ pd, diskEmpty.chunksArt = Artifact.good pd ∧
          pd.documents = some (load dbPrior diskEmpty).2.documents)) :=
  ⟨by decide, (load_fail_behavior dbPrior diskEmpty).1 (by decide)⟩

/-! ## Claim C8 -/

/-- Claim C8 counterexample: a fresh instance pointed at the same storage path
is constructed with the default `embedding_dimension = 384`; after `save` from a
dimension-4 original and a successful `load`, its `stats` report dimension 384
while the original reports 4 — `load` never restores the saved dimension, so the
round trip is not identical for every fresh instance at the same path. -/
theorem save_load_cex :
    (load (initDB "db" 384) (save dbRound diskEmpty)).1 = true ∧
    get_stats (load (initDB "db" 384) (save dbRound diskEmpty)).2 ≠ get_stats dbRound := by
  decide

/-- Claim C8 (amended): for every state holding an index (at least one
successful `add`), `save` followed by `load` on a fresh instance constructed
with the same storage path *and the same `embedding_dimension`* succeeds and
reproduces identical `stats()` and the identical chunk list in the same order. -/
theorem save_load_roundtrip (db : VectorDatabase) (disk : Disk) (i : FaissIndex)
    (h : db.index = some i) :
    (load (initDB db.db_path db.embedding_dimension) (save db disk)).1 = true ∧
    get_stats (load (initDB db.db_path db.embedding_dimension) (save db disk)).2
      = get_stats db ∧
    (load (initDB db.db_path db.embedding_dimension) (save db disk)).2.chunks = db.chunks := by
  simp [save, load, get_stats, initDB, h]

/-- Witness for the amended C8 at the concrete one-entry state. -/
theorem save_load_roundtrip_w :
    dbRound.index = some { d := 4, vecs := [[1, 0, 0, 0]] } ∧
    ((load (initDB dbRound.db_path dbRound.embedding_dimension) (save dbRound diskEmpty)).1 = true ∧
      get_stats (load (initDB dbRound.db_path dbRound.embedding_dimension) (save dbRound diskEmpty)).2
        = get_stats dbRound ∧
      (load (initDB dbRound.db_path dbRound.embedding_dimension) (save dbRound diskEmpty)).2.chunks
        = dbRound.chunks) :=
  ⟨by decide, save_load_roundtrip dbRound diskEmpty { d := 4, vecs := [[1, 0, 0, 0]] } (by decide)⟩

/-! ## Claim C7 -/

theorem selectChunks_budget (tc : String → Nat) (m : Nat) :
    ∀ (l : List SearchResult) (t : Nat), t ≤ m →
      t + ((selectChunks tc m t l).map tc).sum ≤ m := by
  intro l
  induction l with
  | nil =>
    intro t ht
    simpa [selectChunks] using ht
  | cons r rest ih =>
    intro t ht
    by_cases hb : t + tc (fmtChunk r) > m
    · simpa [selectChunks, hb] using ht
    · have h2 := ih (t + tc (fmtChunk r)) (by omega)
      simp only [selectChunks, if_neg hb, List.map_cons, List.sum_cons]
      omega

theorem selectChunks_initial (tc : String → Nat) (m : Nat) :
    ∀ (l : List SearchResult) (t : Nat),
      ∃ n, selectChunks tc m t l = (l.map fmtChunk).take n := by
  intro l
  induction l with
  | nil => exact fun _ => ⟨0, rfl⟩
  | cons r rest ih =>
    intro t
    by_cases hb : t + tc (fmtChunk r) > m
    · exact ⟨0, by simp [selectChunks, hb]⟩
    · obtain ⟨n, hn⟩ := ih (t + tc (fmtChunk r))
      exact ⟨n + 1, by simp [selectChunks, hb, hn]⟩

/-- Claim C7 counterexample: with the constant-1 token counter and
`max_context_tokens = 0`, no chunk is included, yet the preamble-plus-included-
chunks portion already counts 1 token, exceeding the budget of 0 — so the
budget guarantee does not hold for the preamble-plus-chunks portion. -/
theorem create_rag_prompt_budget_cex :
    tcOne systemPrompt
      + ((selectChunks tcOne 0 (tcOne (systemPrompt ++ "q")) [chunkC7]).map tcOne).sum > 0 := by
  decide

/-- Claim C7 (amended): `create_rag_prompt` counts the preamble *plus the user
query* first; it then walks the chunks in their given order, includes a chunk
only while the running total stays within `max_context_tokens`, and stops
permanently at the first chunk that would exceed the budget (the included
context parts form a prefix of the formatted chunk list).  Provided the initial
preamble+query count is itself within the budget, the running total including
all included chunks never exceeds `max_context_tokens`; and with zero chunks
supplied the prompt is exactly the preamble followed by the query framing. -/
theorem create_rag_prompt_greedy (tc : String → Nat) (query : String)
    (relevant_chunks : List SearchResult) (maxTok : Nat) :
    (tc (systemPrompt ++ query) ≤ maxTok →
      tc (systemPrompt ++ query)
        + ((selectChunks tc maxTok (tc (systemPrompt ++ query)) relevant_chunks).map tc).sum
        ≤ maxTok) ∧
    (∃ n, selectChunks tc maxTok (tc (systemPrompt ++ query)) relevant_chunks
        = (relevant_chunks.map fmtChunk).take n) ∧
    createRagPrompt tc query [] maxTok
      = systemPrompt ++ "\n\nQuestion: " ++ query ++ "\n\nAnswer:" := by
  refine ⟨fun h => selectChunks_budget tc maxTok relevant_chunks _ h,
    selectChunks_initial tc maxTok relevant_chunks _, ?_⟩
  simp [createRagPrompt, selectChunks, String.join]

/-- Witness for the amended C7: with the constant-0 counter and budget 0 the
initial count is within budget and the guarantee holds. -/
theorem create_rag_prompt_greedy_w :
    tcZero (systemPrompt ++ "q") ≤ 0 ∧
    tcZero (systemPrompt ++ "q")
      + ((selectChunks tcZero 0 (tcZero (systemPrompt ++ "q")) [chunkC7]).map tcZero).sum ≤ 0 :=
  ⟨by decide, (create_rag_prompt_greedy tcZero "q" [chunkC7] 0).1 (by decide)⟩
